/-
Verification of the task-management data-access layer.

Shallow embedding of the repository's storage backends and controllers:
  * `Memory`      — the volatile in-process store (utils/taskStore, the
                    synchronous `getAllTasks`/`getTaskById`/... family).
  * `Sqlite`      — the durable SQLite store (utils/database).
  * `Controller`  — the task-construction and statistics logic of
                    controllers/taskController.ts.

Modelling conventions:
  * JavaScript `Date` values are modelled as `Nat` milliseconds since the
    epoch.  The SQLite backend stores timestamps as ISO-8601 strings whose
    lexicographic order coincides with the numeric order, so the stored
    value is modelled by the same `Nat`.
  * `new Date()` calls inside one synchronous store/controller operation
    are modelled as a single instant `now` passed to the operation.
  * JavaScript `toLowerCase`/`toUpperCase` and SQLite's `LIKE` case
    folding are modelled on the ASCII range (`lowerChar`/`upperChar`),
    which is where both agree with each other; non-ASCII case folding is
    outside the model.
  * Optional arguments are `Option`; JavaScript truthiness of a string is
    `some s` with `s ≠ ""`, of a number `some n` with `n ≠ 0` (`page` and
    `limit` are modelled as `Option Nat`: the validation layer only admits
    integers ≥ 1, and `parseInt` of such query strings is a natural).
-/
import Mathlib

set_option linter.unusedVariables false

namespace TaskApi

/-- The task status enum of models/task.ts: its three string values appear in
the validation messages ("Status must be one of: PENDING, COMPLETED,
IN_PROGRESS") and throughout the spec. -/
inductive TaskStatus
  | PENDING
  | IN_PROGRESS
  | COMPLETED
deriving DecidableEq, Repr

/-- The string value carried by each `TaskStatus` enum member. -/
def TaskStatus.str : TaskStatus → String
  | .PENDING => "PENDING"
  | .IN_PROGRESS => "IN_PROGRESS"
  | .COMPLETED => "COMPLETED"

/-- The Task record of models/task.ts (spec §3): timestamps as milliseconds. -/
structure Task where
  id : String
  title : String
  description : String
  status : TaskStatus
  createdAt : Nat
  updatedAt : Nat
deriving DecidableEq, Repr

/-- ASCII lower-casing of one character (JS `toLowerCase` / SQLite `LIKE`
folding restricted to ASCII). -/
def lowerChar (c : Char) : Char :=
  if 65 ≤ c.toNat ∧ c.toNat ≤ 90 then Char.ofNat (c.toNat + 32) else c

/-- ASCII upper-casing of one character (JS `toUpperCase` on ASCII). -/
def upperChar (c : Char) : Char :=
  if 97 ≤ c.toNat ∧ c.toNat ≤ 122 then Char.ofNat (c.toNat - 32) else c

/-- JS `String.prototype.toLowerCase` (ASCII model). -/
def jsLower (s : String) : List Char := s.data.map lowerChar

/-- JS `String.prototype.toUpperCase` (ASCII model). -/
def jsUpper (s : String) : List Char := s.data.map upperChar

/-- JS `String.prototype.includes`: contiguous-substring test. -/
def containsSub (needle : List Char) : List Char → Bool
  | [] => needle.isEmpty
  | d :: rest => needle.isPrefixOf (d :: rest) || containsSub needle rest

/-- The `Partial<Task>` patch taken by `updateTask`: each key optionally
present. -/
structure TaskPatch where
  id : Option String := none
  title : Option String := none
  description : Option String := none
  status : Option TaskStatus := none
  createdAt : Option Nat := none
  updatedAt : Option Nat := none
deriving DecidableEq, Repr

/-- The record returned by both backends' `getAllTasks`: the page of tasks,
the pre-pagination total, and — only when pagination was applied — the page
number and `totalPages`. -/
structure ListResult where
  tasks : List Task
  total : Nat
  page : Option Nat := none
  totalPages : Option Nat := none
deriving DecidableEq, Repr

/-- The `Math.ceil (total / limit)` computation on naturals (`limit > 0` in every use). -/
def ceilDiv (total limit : Nat) : Nat := (total + limit - 1) / limit

/-- Stable insertion of a task into a list sorted by `createdAt` descending:
the task goes after every element with `createdAt` ≥ its own. -/
def insertByCreatedDesc (t : Task) : List Task → List Task
  | [] => [t]
  | h :: rest =>
      if t.createdAt ≤ h.createdAt then h :: insertByCreatedDesc t rest
      else t :: h :: rest

/-- The stable sort by `createdAt` descending performed by
`filteredTasks.sort((a, b) => b.createdAt.getTime() - a.createdAt.getTime())`
(JS `Array.prototype.sort` is stable) and by SQLite's
`ORDER BY createdAt DESC` over rowid scan order. -/
def sortByCreatedDesc (l : List Task) : List Task :=
  l.foldl (fun acc t => insertByCreatedDesc t acc) []

namespace Memory

/-- The in-memory backend's status filter:
`task.status.toLowerCase() === status.toLowerCase()`. -/
def statusMatch (status : String) (t : Task) : Bool :=
  jsLower t.status.str == jsLower status

/-- The in-memory backend's search filter:
`task.title.toLowerCase().includes(search.toLowerCase())`. -/
def searchMatch (search : String) (t : Task) : Bool :=
  containsSub (jsLower search) (jsLower t.title)

/-- The `if (status) filteredTasks = filteredTasks.filter(...)` step: the
filter applies only when the argument is truthy. -/
def filterByStatus (tasks : List Task) (status : Option String) : List Task :=
  match status with
  | some s => if s ≠ "" then tasks.filter (statusMatch s) else tasks
  | none => tasks

/-- The `if (search) filteredTasks = filteredTasks.filter(...)` step. -/
def filterBySearch (tasks : List Task) (search : Option String) : List Task :=
  match search with
  | some s => if s ≠ "" then tasks.filter (searchMatch s) else tasks
  | none => tasks

/-- Both truthiness-guarded filter steps of the in-memory `getAllTasks`,
in source order (status first, then search). -/
def applyFilters (tasks : List Task) (status search : Option String) : List Task :=
  filterBySearch (filterByStatus tasks status) search

/-- utils/taskStore `getAllTasks(page?, limit?, status?, search?)`:
filter by status, then by search, sort by `createdAt` descending, then
slice when `page && limit` is truthy. -/
def getAllTasks (tasks : List Task) (page limit : Option Nat)
    (status search : Option String) : ListResult :=
  let f2 := applyFilters tasks status search
  let sorted := sortByCreatedDesc f2
  let total := f2.length
  match page, limit with
  | some p, some l =>
      if p ≠ 0 ∧ l ≠ 0 then
        { tasks := (sorted.drop ((p - 1) * l)).take l
          total := total
          page := some p
          totalPages := some (ceilDiv total l) }
      else { tasks := sorted, total := total }
  | _, _ => { tasks := sorted, total := total }

/-- utils/taskStore `getTaskById`: `tasks.find(t => t.id === id)`. -/
def getTaskById (tasks : List Task) (id : String) : Option Task :=
  tasks.find? (fun t => t.id == id)

/-- utils/taskStore `addTask`: `tasks.push(task)`. -/
def addTask (tasks : List Task) (t : Task) : List Task :=
  tasks ++ [t]

/-- The object-spread merge `{ ...task, ...updates, updatedAt: new Date() }`
of the in-memory `updateTask`: every key present in `updates` overrides,
then `updatedAt` is overwritten with the clock. -/
def spreadMerge (t : Task) (p : TaskPatch) (now : Nat) : Task :=
  { id := p.id.getD t.id
    title := p.title.getD t.title
    description := p.description.getD t.description
    status := p.status.getD t.status
    createdAt := p.createdAt.getD t.createdAt
    updatedAt := now }

/-- utils/taskStore `updateTask`: find the first index whose id matches,
replace the element in place by the spread merge, return it; `none` when
absent (the source's `null`). -/
def updateTask (tasks : List Task) (id : String) (p : TaskPatch) (now : Nat) :
    List Task × Option Task :=
  match tasks with
  | [] => ([], none)
  | t :: rest =>
      if t.id == id then
        (spreadMerge t p now :: rest, some (spreadMerge t p now))
      else
        let r := updateTask rest id p now
        (t :: r.1, r.2)

/-- utils/taskStore `deleteTask`: `findIndex` then `splice(index, 1)` —
removes the first occurrence only; `false` when absent. -/
def deleteTask (tasks : List Task) (id : String) : List Task × Bool :=
  match tasks with
  | [] => ([], false)
  | t :: rest =>
      if t.id == id then (rest, true)
      else
        let r := deleteTask rest id
        (t :: r.1, r.2)

/-- utils/taskStore `getTaskCount`: `tasks.length`. -/
def getTaskCount (tasks : List Task) : Nat := tasks.length

/-- utils/taskStore `clearAllTasks`: `tasks = []`. -/
def clearAllTasks (tasks : List Task) : List Task := []

end Memory

namespace Sqlite

/-- SQLite `LIKE` matching (no `ESCAPE` clause): `%` matches any run of
characters, `_` matches exactly one, and any other pattern character matches
case-insensitively on the ASCII range. -/
def likeMatch : List Char → List Char → Bool
  | [], s => s.isEmpty
  | c :: p, s =>
      if c = '%' then s.tails.any (fun u => likeMatch p u)
      else
        match s with
        | [] => false
        | d :: s' =>
            if c = '_' then likeMatch p s'
            else lowerChar c == lowerChar d && likeMatch p s'

/-- The `WHERE` clause of utils/database `getAllTasks`:
`status = ?` with the parameter upper-cased, and `title LIKE ?` with the
parameter `%search%`, each added only when the argument is truthy. -/
def rowMatch (status search : Option String) (t : Task) : Bool :=
  (match status with
   | some s => if s ≠ "" then t.status.str.data == jsUpper s else true
   | none => true)
  &&
  (match search with
   | some s =>
      if s ≠ "" then likeMatch ('%' :: (s.data ++ ['%'])) t.title.data
      else true
   | none => true)

/-- utils/database `getAllTasks`: filter by the `WHERE` clause, count the
filtered set before pagination, `ORDER BY createdAt DESC` (rowid scan order
on ties), then `LIMIT ? OFFSET ?` when `page && limit` is truthy. -/
def getAllTasks (tbl : List Task) (page limit : Option Nat)
    (status search : Option String) : ListResult :=
  let filtered := tbl.filter (rowMatch status search)
  let total := filtered.length
  let ordered := sortByCreatedDesc filtered
  match page, limit with
  | some p, some l =>
      if p ≠ 0 ∧ l ≠ 0 then
        { tasks := (ordered.drop ((p - 1) * l)).take l
          total := total
          page := some p
          totalPages := some (ceilDiv total l) }
      else { tasks := ordered, total := total }
  | _, _ => { tasks := ordered, total := total }

/-- utils/database `getTaskById`: `SELECT * FROM tasks WHERE id = ?`,
`db.get` returns the first matching row. -/
def getTaskById (tbl : List Task) (id : String) : Option Task :=
  tbl.find? (fun t => t.id == id)

/-- utils/database `addTask`: `INSERT INTO tasks ...` — appends the row in
rowid order; the `id` PRIMARY KEY makes the insert fail (`none`) on a
duplicate id. -/
def addTask (tbl : List Task) (t : Task) : Option (List Task) :=
  if tbl.any (fun u => u.id == t.id) then none else some (tbl ++ [t])

/-- The row persisted by utils/database `updateTask`: `SET` clauses are added
only for `title`, `description` and `status` keys present in the patch, plus
`updatedAt = now`; `id` and `createdAt` have no `SET` clause. -/
def mergePersist (t : Task) (p : TaskPatch) (now : Nat) : Task :=
  { t with
    title := p.title.getD t.title
    description := p.description.getD t.description
    status := p.status.getD t.status
    updatedAt := now }

/-- utils/database `updateTask`: read the existing row (`none` when absent),
run `UPDATE ... WHERE id = ?` (touching every row with that id), then
re-read and return the updated row. -/
def updateTask (tbl : List Task) (id : String) (p : TaskPatch) (now : Nat) :
    List Task × Option Task :=
  match getTaskById tbl id with
  | none => (tbl, none)
  | some _ =>
      let tbl' := tbl.map (fun t => if t.id == id then mergePersist t p now else t)
      (tbl', getTaskById tbl' id)

/-- utils/database `deleteTask`: `DELETE FROM tasks WHERE id = ?` removes
every matching row; returns `changes > 0`. -/
def deleteTask (tbl : List Task) (id : String) : List Task × Bool :=
  (tbl.filter (fun t => t.id != id), tbl.any (fun t => t.id == id))

/-- utils/database `getTaskCount`: `SELECT COUNT(*) FROM tasks`. -/
def getTaskCount (tbl : List Task) : Nat := tbl.length

/-- utils/database `clearAllTasks`: `DELETE FROM tasks`. -/
def clearAllTasks (tbl : List Task) : List Task := []

end Sqlite

namespace Controller

/-- The fields of a `CreateTaskRequest` reaching `createTask` after
validation: `title` required, `description` and `status` optional. -/
structure CreateTaskRequest where
  title : String
  description : Option String := none
  status : Option TaskStatus := none
deriving DecidableEq, Repr

/-- The `newTask` object built by `createTask`:
`description: description || ''` (empty or missing become `''`),
`status: status || TaskStatus.PENDING`, both timestamps from the clock. -/
def newTask (req : CreateTaskRequest) (id : String) (now : Nat) : Task :=
  { id := id
    title := req.title
    description := match req.description with
      | some d => if d ≠ "" then d else ""
      | none => ""
    status := req.status.getD TaskStatus.PENDING
    createdAt := now
    updatedAt := now }

/-- The statistics record built by `getTaskStats`: exactly the four counts
`total`, `pending`, `inProgress`, `completed` — the handler computes no
other field. -/
structure TaskStats where
  total : Nat
  pending : Nat
  inProgress : Nat
  completed : Nat
deriving DecidableEq, Repr

/-- Handler `getTaskStats`: `getAllTasks()` with no arguments, then counts of each
status over the returned (full, unfiltered) task list. -/
def getTaskStats (tasks : List Task) : TaskStats :=
  let all := (Memory.getAllTasks tasks none none none none).tasks
  { total := all.length
    pending := (all.filter (fun t => t.status == TaskStatus.PENDING)).length
    inProgress := (all.filter (fun t => t.status == TaskStatus.IN_PROGRESS)).length
    completed := (all.filter (fun t => t.status == TaskStatus.COMPLETED)).length }

end Controller

/-! ### The store contract as an operation language

One sequence of store operations, interpreted against either backend, to
compare observable behaviour (spec §4.1: "Both implementations must produce
identical observable results for identical inputs"). -/

/-- One store operation with its inputs; mutating operations carry the
instant `now` read from the clock during that operation. -/
inductive Op
  | create (t : Task)
  | get (id : String)
  | listq (page limit : Option Nat) (status search : Option String)
  | update (id : String) (p : TaskPatch) (now : Nat)
  | del (id : String)
  | count
  | clear
deriving DecidableEq, Repr

/-- The observable result of one store operation. `stored none` models the
SQLite PRIMARY KEY constraint fault on a duplicate-id insert; for `get` and
`update`, the in-memory `undefined`/`null` and the SQLite `undefined` are the
same "absent" signal. -/
inductive Out
  | task (t : Option Task)
  | stored (t : Option Task)
  | listing (r : ListResult)
  | removed (b : Bool)
  | counted (n : Nat)
  | done
deriving DecidableEq, Repr

/-- One step of the volatile backend. -/
def memStep (s : List Task) : Op → List Task × Out
  | .create t => (Memory.addTask s t, .stored (some t))
  | .get id => (s, .task (Memory.getTaskById s id))
  | .listq page limit status search =>
      (s, .listing (Memory.getAllTasks s page limit status search))
  | .update id p now =>
      let r := Memory.updateTask s id p now
      (r.1, .task r.2)
  | .del id =>
      let r := Memory.deleteTask s id
      (r.1, .removed r.2)
  | .count => (s, .counted (Memory.getTaskCount s))
  | .clear => (Memory.clearAllTasks s, .done)

/-- One step of the durable backend. -/
def sqlStep (s : List Task) : Op → List Task × Out
  | .create t =>
      match Sqlite.addTask s t with
      | some s' => (s', .stored (some t))
      | none => (s, .stored none)
  | .get id => (s, .task (Sqlite.getTaskById s id))
  | .listq page limit status search =>
      (s, .listing (Sqlite.getAllTasks s page limit status search))
  | .update id p now =>
      let r := Sqlite.updateTask s id p now
      (r.1, .task r.2)
  | .del id =>
      let r := Sqlite.deleteTask s id
      (r.1, .removed r.2)
  | .count => (s, .counted (Sqlite.getTaskCount s))
  | .clear => (Sqlite.clearAllTasks s, .done)

/-- Run a sequence of operations against the volatile backend, collecting
the final store and every observable output. -/
def memRun : List Task → List Op → List Task × List Out
  | s, [] => (s, [])
  | s, op :: ops =>
      let r := memStep s op
      let rr := memRun r.1 ops
      (rr.1, r.2 :: rr.2)

/-- Run a sequence of operations against the durable backend. -/
def sqlRun : List Task → List Op → List Task × List Out
  | s, [] => (s, [])
  | s, op :: ops =>
      let r := sqlStep s op
      let rr := sqlRun r.1 ops
      (rr.1, r.2 :: rr.2)

/-- The input discipline under which the two backends agree (C2 amended):
created ids are fresh (the spec's "ids are generated, assumed unique"),
update patches never carry `id`/`createdAt` keys, and search strings carry
no SQLite `LIKE` wildcard characters. -/
def legal (s : List Task) : Op → Prop
  | .create t => t.id ∉ s.map Task.id
  | .update _ p _ => p.id = none ∧ p.createdAt = none
  | .listq _ _ _ search =>
      match search with
      | some q => '%' ∉ q.data ∧ '_' ∉ q.data
      | none => True
  | _ => True

/-- Predicate `legal` holding at every step of a run. -/
def legalSeq : List Task → List Op → Prop
  | _, [] => True
  | s, op :: ops => legal s op ∧ legalSeq (memStep s op).1 ops

/-! ### Concrete states used by examples and counterexamples -/

/-- Task A of the spec's statistics scenario (§8): status PENDING. -/
def statTaskA : Task :=
  { id := "a1", title := "alpha", description := "", status := .PENDING,
    createdAt := 3, updatedAt := 3 }

/-- Task B of the spec's statistics scenario: status PENDING. -/
def statTaskB : Task :=
  { id := "b2", title := "beta", description := "", status := .PENDING,
    createdAt := 2, updatedAt := 2 }

/-- Task C of the spec's statistics scenario: status COMPLETED. -/
def statTaskC : Task :=
  { id := "c3", title := "gamma", description := "", status := .COMPLETED,
    createdAt := 1, updatedAt := 1 }

/-- A task whose title has no `%` character, to separate the two search
implementations. -/
def plainTask : Task :=
  { id := "x", title := "abc", description := "", status := .PENDING,
    createdAt := 1, updatedAt := 1 }

/-- Created second but with the alphabetically smaller title: title-ascending
order and createdAt-descending order disagree on `[sortTaskA, sortTaskB]`. -/
def sortTaskA : Task :=
  { id := "sa", title := "b", description := "", status := .PENDING,
    createdAt := 2, updatedAt := 2 }

/-- See `sortTaskA`. -/
def sortTaskB : Task :=
  { id := "sb", title := "a", description := "", status := .PENDING,
    createdAt := 1, updatedAt := 1 }

/-! ## Lemmas about the stable sort -/

theorem insertByCreatedDesc_perm (t : Task) (l : List Task) :
    (insertByCreatedDesc t l).Perm (t :: l) := by
  induction l with
  | nil => simp [insertByCreatedDesc]
  | cons h rest ih =>
      simp only [insertByCreatedDesc]
      split
      · exact (ih.cons h).trans (List.Perm.swap t h rest)
      · exact List.Perm.refl _

theorem sortByCreatedDesc_perm (l : List Task) : (sortByCreatedDesc l).Perm l := by
  have key : ∀ (l acc : List Task),
      (l.foldl (fun acc t => insertByCreatedDesc t acc) acc).Perm (acc ++ l) := by
    intro l
    induction l with
    | nil => intro acc; simp
    | cons t rest ih =>
        intro acc
        simp only [List.foldl_cons]
        refine (ih _).trans ?_
        exact ((insertByCreatedDesc_perm t acc).append_right rest).trans List.perm_middle.symm
  simpa using key l []

/-- The three status filters split any task list exactly. -/
theorem filter_status_partition (l : List Task) :
    (l.filter (fun t => t.status == TaskStatus.PENDING)).length
      + (l.filter (fun t => t.status == TaskStatus.IN_PROGRESS)).length
      + (l.filter (fun t => t.status == TaskStatus.COMPLETED)).length = l.length := by
  induction l with
  | nil => rfl
  | cons t rest ih =>
      cases h : t.status <;> simp [List.filter_cons, h] <;> omega

/-! ## C7 -/

/-- C7: `getTaskStats` counts over the entire unfiltered collection (its
`getAllTasks()` call passes no filter and no pagination), each count is the
exact per-status count over the whole store, and
`pending + inProgress + completed = total` holds for every state of the
collection, including the empty one. -/
theorem c7_stats_unfiltered_partition (tasks : List Task) :
    (Controller.getTaskStats tasks).total = tasks.length ∧
    (Controller.getTaskStats tasks).pending
      = (tasks.filter (fun t => t.status == TaskStatus.PENDING)).length ∧
    (Controller.getTaskStats tasks).inProgress
      = (tasks.filter (fun t => t.status == TaskStatus.IN_PROGRESS)).length ∧
    (Controller.getTaskStats tasks).completed
      = (tasks.filter (fun t => t.status == TaskStatus.COMPLETED)).length ∧
    (Controller.getTaskStats tasks).pending + (Controller.getTaskStats tasks).inProgress
      + (Controller.getTaskStats tasks).completed = (Controller.getTaskStats tasks).total := by
  have hperm : ((Memory.getAllTasks tasks none none none none).tasks).Perm tasks :=
    sortByCreatedDesc_perm tasks
  have htot : (Controller.getTaskStats tasks).total = tasks.length := hperm.length_eq
  have hp : (Controller.getTaskStats tasks).pending
      = (tasks.filter (fun t => t.status == TaskStatus.PENDING)).length := by
    have h := (hperm.filter (fun t => t.status == TaskStatus.PENDING)).length_eq
    exact h
  have hi : (Controller.getTaskStats tasks).inProgress
      = (tasks.filter (fun t => t.status == TaskStatus.IN_PROGRESS)).length := by
    have h := (hperm.filter (fun t => t.status == TaskStatus.IN_PROGRESS)).length_eq
    exact h
  have hc : (Controller.getTaskStats tasks).completed
      = (tasks.filter (fun t => t.status == TaskStatus.COMPLETED)).length := by
    have h := (hperm.filter (fun t => t.status == TaskStatus.COMPLETED)).length_eq
    exact h
  refine ⟨htot, hp, hi, hc, ?_⟩
  rw [hp, hi, hc, htot]
  exact filter_status_partition tasks

/-! ## C1 -/

/-- C1 (code bug): at the spec's example state — statuses PENDING, PENDING,
COMPLETED — `getTaskStats` returns exactly the four counts
`{total := 3, pending := 2, inProgress := 0, completed := 1}`. The
`TaskStats` record the handler builds has no `completionRate` field at all:
the swagger `TaskStats` schema documents a `completionRate` percentage, but
the handler never computes one, so the claimed `completionRate = 33.33` is
absent from the stats result. -/
theorem c1_stats_without_completionRate :
    Controller.getTaskStats [statTaskA, statTaskB, statTaskC]
      = { total := 3, pending := 2, inProgress := 0, completed := 1 } := by
  decide

/-! ## C4 -/

/-- C4 (code bug): the in-memory `updateTask` merges with generic object
spread, so a patch carrying a `createdAt` key overwrites `createdAt` (and an
`id` key likewise): updating `plainTask` (createdAt 1) with
`{createdAt := 99}` at instant 5 yields a record with `createdAt = 99`. The
SQLite backend, which emits `SET` clauses only for `title`/`description`/
`status`, keeps `createdAt = 1` on the same input, as the claim demands. -/
theorem c4_spread_applies_createdAt :
    (Memory.updateTask [plainTask] "x" { createdAt := some 99 } 5).2
      = some { id := "x", title := "abc", description := "", status := .PENDING,
               createdAt := 99, updatedAt := 5 } ∧
    (Sqlite.updateTask [plainTask] "x" { createdAt := some 99 } 5).2
      = some { id := "x", title := "abc", description := "", status := .PENDING,
               createdAt := 1, updatedAt := 5 } := by
  decide

/-! ## C8 -/

/-- C8: creating a task and reading back the generated id returns exactly the
constructed record: `title` from the input, `description` defaulting to the
empty string when omitted (`description || ''`), `status` defaulting to
PENDING when omitted (`status || TaskStatus.PENDING`), the generated `id`,
and `createdAt = updatedAt` at creation. The generated id is fresh, per the
spec's "ids are generated, assumed unique". -/
theorem c8_create_get_roundtrip (tasks : List Task)
    (req : Controller.CreateTaskRequest) (id : String) (now : Nat)
    (hfresh : id ∉ tasks.map Task.id) :
    Memory.getTaskById (Memory.addTask tasks (Controller.newTask req id now)) id
      = some (Controller.newTask req id now) ∧
    (Controller.newTask req id now).id = id ∧
    (Controller.newTask req id now).title = req.title ∧
    (Controller.newTask req id now).description = req.description.getD "" ∧
    (Controller.newTask req id now).status = req.status.getD TaskStatus.PENDING ∧
    (Controller.newTask req id now).createdAt = (Controller.newTask req id now).updatedAt := by
  refine ⟨?_, rfl, rfl, ?_, rfl, rfl⟩
  · unfold Memory.getTaskById Memory.addTask
    rw [List.find?_append]
    have hnone : tasks.find? (fun t => t.id == id) = none := by
      rw [List.find?_eq_none]
      intro t ht hbeq
      exact hfresh (List.mem_map.mpr ⟨t, ht, eq_of_beq hbeq⟩)
    rw [hnone]
    simp [Controller.newTask]
  · cases hd : req.description with
    | none => simp [Controller.newTask, hd]
    | some d =>
        by_cases hde : d = "" <;> simp [Controller.newTask, hd, hde]

/-- Closed instance of `c8_create_get_roundtrip` at a concrete store and
request. -/
theorem c8_create_get_roundtrip_witness :
    "n1" ∉ ([statTaskA].map Task.id) ∧
    (Memory.getTaskById
        (Memory.addTask [statTaskA] (Controller.newTask { title := "t" } "n1" 7)) "n1"
      = some (Controller.newTask { title := "t" } "n1" 7) ∧
    (Controller.newTask { title := "t" } "n1" 7).id = "n1" ∧
    (Controller.newTask { title := "t" } "n1" 7).title = "t" ∧
    (Controller.newTask { title := "t" } "n1" 7).description
      = (Option.getD none "") ∧
    (Controller.newTask { title := "t" } "n1" 7).status
      = (Option.getD none TaskStatus.PENDING) ∧
    (Controller.newTask { title := "t" } "n1" 7).createdAt
      = (Controller.newTask { title := "t" } "n1" 7).updatedAt) :=
  ⟨by decide, c8_create_get_roundtrip [statTaskA] { title := "t" } "n1" 7 (by decide)⟩

/-! ## C9 -/

/-- The boolean returned by the in-memory delete: whether some task matched. -/
theorem memory_deleteTask_snd (tasks : List Task) (id : String) :
    (Memory.deleteTask tasks id).2 = tasks.any (fun t => t.id == id) := by
  induction tasks with
  | nil => rfl
  | cons t rest ih =>
      simp only [Memory.deleteTask, List.any_cons]
      split
      · next h => simp [h]
      · next h =>
          have hb : (t.id == id) = false := by simpa using h
          simp [hb, ih]

/-- After deleting an id that occurred at most once, the id is gone. -/
theorem memory_deleteTask_not_mem (tasks : List Task) (id : String)
    (h : (tasks.map Task.id).count id ≤ 1) :
    id ∉ (Memory.deleteTask tasks id).1.map Task.id := by
  induction tasks with
  | nil => simp [Memory.deleteTask]
  | cons t rest ih =>
      simp only [List.map_cons, List.count_cons] at h
      simp only [Memory.deleteTask]
      split
      · next hbeq =>
          have ht : t.id = id := eq_of_beq hbeq
          have hcount : (rest.map Task.id).count id = 0 := by
            simp [ht] at h
            omega
          simpa using List.count_eq_zero.mp hcount
      · next hbeq =>
          have ht : ¬ t.id = id := by
            intro he
            exact hbeq (by simp [he])
          have hrest := ih (by simp [ht] at h ⊢; omega)
          simp only [List.map_cons, List.mem_cons]
          rintro (he | he)
          · exact ht he.symm
          · exact hrest he

/-- C9: delete removes the record when present and returns a boolean: `true`
exactly when the id was present (hence exactly once for a unique id), and
`false` — never a fault — on a repeated delete or an id never present; shown
for both the in-memory backend (splice of the first match) and the SQLite
backend (`DELETE ... WHERE id = ?`, `changes > 0`). -/
theorem c9_delete_idempotent_boolean (tasks : List Task) (id : String)
    (huniq : (tasks.map Task.id).count id ≤ 1) :
    ((Memory.deleteTask tasks id).2 = true ↔ id ∈ tasks.map Task.id) ∧
    (Memory.deleteTask (Memory.deleteTask tasks id).1 id).2 = false ∧
    ((Sqlite.deleteTask tasks id).2 = true ↔ id ∈ tasks.map Task.id) ∧
    (Sqlite.deleteTask (Sqlite.deleteTask tasks id).1 id).2 = false := by
  have hany : ∀ l : List Task,
      (l.any (fun t => t.id == id) = true ↔ id ∈ l.map Task.id) := by
    intro l
    simp [List.any_eq_true, List.mem_map, beq_iff_eq]
  refine ⟨by rw [memory_deleteTask_snd]; exact hany tasks, ?_, ?_, ?_⟩
  · rw [memory_deleteTask_snd]
    rw [← Bool.not_eq_true, hany]
    exact memory_deleteTask_not_mem tasks id huniq
  · exact hany tasks
  · show ((tasks.filter (fun t => t.id != id)).any (fun t => t.id == id)) = false
    rw [← Bool.not_eq_true, hany]
    intro hmem
    rcases List.mem_map.mp hmem with ⟨t, ht, rfl⟩
    rcases List.mem_filter.mp ht with ⟨_, hne⟩
    simp at hne

/-- Closed instance of `c9_delete_idempotent_boolean` at a concrete store. -/
theorem c9_delete_idempotent_boolean_witness :
    ([statTaskA, statTaskB].map Task.id).count "a1" ≤ 1 ∧
    (((Memory.deleteTask [statTaskA, statTaskB] "a1").2 = true
        ↔ "a1" ∈ [statTaskA, statTaskB].map Task.id) ∧
     (Memory.deleteTask (Memory.deleteTask [statTaskA, statTaskB] "a1").1 "a1").2 = false ∧
     ((Sqlite.deleteTask [statTaskA, statTaskB] "a1").2 = true
        ↔ "a1" ∈ [statTaskA, statTaskB].map Task.id) ∧
     (Sqlite.deleteTask (Sqlite.deleteTask [statTaskA, statTaskB] "a1").1 "a1").2 = false) :=
  ⟨by decide, c9_delete_idempotent_boolean [statTaskA, statTaskB] "a1" (by decide)⟩

/-! ## C10 -/

/-- C10: when `page` or `limit` is missing or zero (JS falsy), neither
backend slices: the result is the full filtered, sorted set with `total`,
and carries no `page`/`totalPages` fields; conversely a result carrying
`page` or `totalPages` can only arise when both `page` and `limit` were
supplied and positive. -/
theorem c10_slicing_only_both_positive (tasks : List Task)
    (page limit : Option Nat) (status search : Option String) :
    ((page = none ∨ limit = none ∨ page = some 0 ∨ limit = some 0) →
       Memory.getAllTasks tasks page limit status search
         = { tasks := sortByCreatedDesc (Memory.applyFilters tasks status search)
             total := (Memory.applyFilters tasks status search).length } ∧
       Sqlite.getAllTasks tasks page limit status search
         = { tasks := sortByCreatedDesc (tasks.filter (Sqlite.rowMatch status search))
             total := (tasks.filter (Sqlite.rowMatch status search)).length }) ∧
    (((Memory.getAllTasks tasks page limit status search).page ≠ none ∨
      (Memory.getAllTasks tasks page limit status search).totalPages ≠ none ∨
      (Sqlite.getAllTasks tasks page limit status search).page ≠ none ∨
      (Sqlite.getAllTasks tasks page limit status search).totalPages ≠ none) →
       ∃ p l, page = some p ∧ limit = some l ∧ 0 < p ∧ 0 < l) := by
  rcases page with _ | p
  · exact ⟨fun _ => ⟨rfl, rfl⟩,
      by rcases limit with _ | l <;> simp [Memory.getAllTasks, Sqlite.getAllTasks]⟩
  rcases limit with _ | l
  · exact ⟨fun _ => ⟨rfl, rfl⟩, by simp [Memory.getAllTasks, Sqlite.getAllTasks]⟩
  by_cases hp : p = 0
  · subst hp
    refine ⟨fun _ => ?_, ?_⟩
    · constructor <;> simp [Memory.getAllTasks, Sqlite.getAllTasks]
    · simp [Memory.getAllTasks, Sqlite.getAllTasks]
  by_cases hl : l = 0
  · subst hl
    refine ⟨fun _ => ?_, ?_⟩
    · constructor <;> simp [Memory.getAllTasks, Sqlite.getAllTasks]
    · simp [Memory.getAllTasks, Sqlite.getAllTasks]
  · refine ⟨fun h => ?_, fun _ => ⟨p, l, rfl, rfl, Nat.pos_of_ne_zero hp, Nat.pos_of_ne_zero hl⟩⟩
    rcases h with h | h | h | h <;> simp_all

/-- Closed instance of `c10_slicing_only_both_positive`: a `limit` supplied
without a `page` performs no slicing on either backend. -/
theorem c10_slicing_only_both_positive_witness :
    Memory.getAllTasks [statTaskA] none (some 5) none none
      = { tasks := sortByCreatedDesc (Memory.applyFilters [statTaskA] none none)
          total := (Memory.applyFilters [statTaskA] none none).length } ∧
    Sqlite.getAllTasks [statTaskA] none (some 5) none none
      = { tasks := sortByCreatedDesc ([statTaskA].filter (Sqlite.rowMatch none none))
          total := ([statTaskA].filter (Sqlite.rowMatch none none)).length } :=
  (c10_slicing_only_both_positive [statTaskA] none (some 5) none none).1 (Or.inl rfl)

/-! ## C6 -/

/-- C6: a task appears in the unpaginated list result iff it belongs to the
store and passes every supplied (truthy) filter conjunct: the status filter
compares the lower-cased canonical status string with the lower-cased input
(`statusMatch`), and the search filter requires the lower-cased search string
to be a contiguous substring of the lower-cased title — title only
(`searchMatch`); the two compose with AND. -/
theorem c6_filter_membership (tasks : List Task)
    (status search : Option String) (t : Task) :
    t ∈ (Memory.getAllTasks tasks none none status search).tasks ↔
      (t ∈ tasks ∧
       (∀ s, status = some s → s ≠ "" → Memory.statusMatch s t = true) ∧
       (∀ q, search = some q → q ≠ "" → Memory.searchMatch q t = true)) := by
  have hmem : t ∈ (Memory.getAllTasks tasks none none status search).tasks ↔
      t ∈ Memory.applyFilters tasks status search :=
    (sortByCreatedDesc_perm (Memory.applyFilters tasks status search)).mem_iff
  rw [hmem]
  unfold Memory.applyFilters Memory.filterBySearch Memory.filterByStatus
  rcases status with _ | s <;> rcases search with _ | q
  · simp
  · by_cases hq : q = "" <;> simp [hq, List.mem_filter]
  · by_cases hs : s = "" <;> simp [hs, List.mem_filter]
  · by_cases hs : s = "" <;> by_cases hq : q = "" <;>
      [skip; skip; skip; skip] <;> (simp [hs, hq, List.mem_filter, and_assoc]; try tauto)

/-- Closed instance of `c6_filter_membership` (no hypotheses; concrete
filters): with status filter "pending" and search "LPH", only `statTaskA`
("alpha", PENDING) passes both conjuncts. -/
theorem c6_filter_membership_witness :
    (statTaskA ∈ (Memory.getAllTasks [statTaskA, statTaskB, statTaskC]
        none none (some "pending") (some "LPH")).tasks ↔
      (statTaskA ∈ [statTaskA, statTaskB, statTaskC] ∧
       (∀ s, (some "pending" : Option String) = some s → s ≠ "" →
          Memory.statusMatch s statTaskA = true) ∧
       (∀ q, (some "LPH" : Option String) = some q → q ≠ "" →
          Memory.searchMatch q statTaskA = true))) :=
  c6_filter_membership [statTaskA, statTaskB, statTaskC]
    (some "pending") (some "LPH") statTaskA

/-! ## C5 -/

/-- Evaluating `Memory.getAllTasks` with both `page` and `limit` truthy: the sliced
form. -/
theorem memory_getAllTasks_paginated (tasks : List Task)
    (status search : Option String) (p l : Nat) (hp : p ≠ 0) (hl : l ≠ 0) :
    Memory.getAllTasks tasks (some p) (some l) status search
      = { tasks := ((sortByCreatedDesc (Memory.applyFilters tasks status search)).drop
            ((p - 1) * l)).take l
          total := (Memory.applyFilters tasks status search).length
          page := some p
          totalPages := some (ceilDiv (Memory.applyFilters tasks status search).length l) } := by
  simp [Memory.getAllTasks, hp, hl]

/-- Identity `ceilDiv m lim = (m - 1) / lim + 1` for `m ≥ 1`. -/
theorem ceilDiv_pos_eq (m lim : Nat) (hl : 1 ≤ lim) (hm : 1 ≤ m) :
    ceilDiv m lim = (m - 1) / lim + 1 := by
  unfold ceilDiv
  have h : m + lim - 1 = (m - 1) + lim := by omega
  rw [h, Nat.add_div_right _ (by omega)]

/-- Function `ceilDiv` is the ceiling of the division: `lim * ceilDiv m lim` is the
least multiple of `lim` that is `≥ m` (for `lim ≥ 1`). -/
theorem ceilDiv_bounds (m lim : Nat) (hl : 1 ≤ lim) :
    m ≤ lim * ceilDiv m lim ∧ lim * ceilDiv m lim < m + lim := by
  rcases Nat.eq_zero_or_pos m with hm | hm
  · subst hm
    have : ceilDiv 0 lim = 0 := by
      unfold ceilDiv
      exact Nat.div_eq_of_lt (by omega)
    rw [this]
    omega
  · rw [ceilDiv_pos_eq m lim hl hm, Nat.mul_succ]
    have hdm := Nat.div_add_mod (m - 1) lim
    have hmod : (m - 1) % lim < lim := Nat.mod_lt _ (by omega)
    generalize hq : lim * ((m - 1) / lim) = a at hdm ⊢
    omega

/-- Peeling one `lim`-sized chunk off a nonempty list: the page count of the
remainder is one less. -/
theorem ceilDiv_drop (l : List Task) (lim : Nat) (hl : 1 ≤ lim)
    (hm : 1 ≤ l.length) :
    ceilDiv l.length lim = ceilDiv (l.drop lim).length lim + 1 := by
  rw [List.length_drop]
  rcases le_or_lt l.length lim with hle | hlt
  · have h0 : l.length - lim = 0 := by omega
    rw [h0]
    have hz : ceilDiv 0 lim = 0 := by
      unfold ceilDiv
      exact Nat.div_eq_of_lt (by omega)
    rw [hz, ceilDiv_pos_eq _ _ hl hm, Nat.div_eq_of_lt (by omega)]
  · rw [ceilDiv_pos_eq _ _ hl hm, ceilDiv_pos_eq _ _ hl (by omega)]
    have h : l.length - 1 = (l.length - lim - 1) + lim := by omega
    rw [h, Nat.add_div_right _ (by omega)]

/-- Splitting a list into `lim`-sized contiguous chunks for pages
`1..ceil(length/lim)` and concatenating them reproduces the list. -/
theorem chunks_reconstruct (lim : Nat) (hl : 1 ≤ lim) :
    ∀ (n : Nat) (l : List Task), l.length ≤ n →
      (List.range (ceilDiv l.length lim)).flatMap
          (fun i => (l.drop (i * lim)).take lim) = l := by
  intro n
  induction n with
  | zero =>
      intro l hlen
      have hnil : l = [] := List.eq_nil_of_length_eq_zero (Nat.le_zero.mp hlen)
      subst hnil
      have hz : ceilDiv 0 lim = 0 := by
        unfold ceilDiv
        exact Nat.div_eq_of_lt (by omega)
      simp [hz]
  | succ n ih =>
      intro l hlen
      by_cases h0 : l.length = 0
      · have hnil : l = [] := List.eq_nil_of_length_eq_zero h0
        subst hnil
        have hz : ceilDiv 0 lim = 0 := by
          unfold ceilDiv
          exact Nat.div_eq_of_lt (by omega)
        simp [hz]
      · rw [ceilDiv_drop l lim hl (by omega), List.range_succ_eq_map,
          List.flatMap_cons, List.flatMap_map]
        have hchunk : ∀ i : Nat,
            ((l.drop ((i + 1) * lim)).take lim)
              = (((l.drop lim).drop (i * lim)).take lim) := by
          intro i
          rw [List.drop_drop]
          have he : lim + i * lim = (i + 1) * lim := by ring
          rw [he]
        calc (l.drop (0 * lim)).take lim
              ++ (List.range (ceilDiv (l.drop lim).length lim)).flatMap
                  (fun i => (l.drop ((i + 1) * lim)).take lim)
            = l.take lim
              ++ (List.range (ceilDiv (l.drop lim).length lim)).flatMap
                  (fun i => ((l.drop lim).drop (i * lim)).take lim) := by
              simp only [Nat.zero_mul, List.drop_zero]
              congr 1
              exact List.flatMap_congr (fun i _ => hchunk i)
          _ = l.take lim ++ l.drop lim := by
              have hre := ih (l.drop lim) (by rw [List.length_drop]; omega)
              rw [hre]
          _ = l := List.take_append_drop lim l

/-- C5: with both `page` and `limit` positive, the in-memory list result's
slice has length ≤ `limit`; `total` is the filtered count before pagination;
`totalPages` is `ceil(total / limit)` (`ceilDiv`, bracketed by the two
ceiling inequalities); and concatenating the slices of pages
`1..totalPages` reconstructs the whole filtered, sorted set — no duplicates,
no omissions. -/
theorem c5_pagination (tasks : List Task) (status search : Option String)
    (page lim : Nat) (hp : 1 ≤ page) (hl : 1 ≤ lim) :
    (Memory.getAllTasks tasks (some page) (some lim) status search).tasks.length ≤ lim ∧
    (Memory.getAllTasks tasks (some page) (some lim) status search).total
      = (Memory.applyFilters tasks status search).length ∧
    (Memory.getAllTasks tasks (some page) (some lim) status search).totalPages
      = some (ceilDiv (Memory.applyFilters tasks status search).length lim) ∧
    (Memory.applyFilters tasks status search).length
      ≤ lim * ceilDiv (Memory.applyFilters tasks status search).length lim ∧
    lim * ceilDiv (Memory.applyFilters tasks status search).length lim
      < (Memory.applyFilters tasks status search).length + lim ∧
    (List.range (ceilDiv (Memory.applyFilters tasks status search).length lim)).flatMap
        (fun i => (Memory.getAllTasks tasks (some (i + 1)) (some lim) status search).tasks)
      = sortByCreatedDesc (Memory.applyFilters tasks status search) := by
  have hb := ceilDiv_bounds (Memory.applyFilters tasks status search).length lim hl
  have hlen : (sortByCreatedDesc (Memory.applyFilters tasks status search)).length
      = (Memory.applyFilters tasks status search).length :=
    (sortByCreatedDesc_perm _).length_eq
  refine ⟨?_, ?_, ?_, hb.1, hb.2, ?_⟩
  · rw [memory_getAllTasks_paginated tasks status search page lim (by omega) (by omega)]
    exact List.length_take_le _ _
  · rw [memory_getAllTasks_paginated tasks status search page lim (by omega) (by omega)]
  · rw [memory_getAllTasks_paginated tasks status search page lim (by omega) (by omega)]
  · have hre := chunks_reconstruct lim hl
      (sortByCreatedDesc (Memory.applyFilters tasks status search)).length
      (sortByCreatedDesc (Memory.applyFilters tasks status search)) le_rfl
    rw [hlen] at hre
    rw [← hre]
    refine List.flatMap_congr ?_
    intro i _
    rw [memory_getAllTasks_paginated tasks status search (i + 1) lim (by omega) (by omega)]
    simp

/-- Closed instance of `c5_pagination`: page 2 of limit 2 over three tasks
(the spec's 25-task/3-page scenario in miniature). -/
theorem c5_pagination_witness :
    ((1 : Nat) ≤ 2 ∧ (1 : Nat) ≤ 2) ∧
    ((Memory.getAllTasks [statTaskA, statTaskB, statTaskC]
        (some 2) (some 2) none none).tasks.length ≤ 2 ∧
     (Memory.getAllTasks [statTaskA, statTaskB, statTaskC]
        (some 2) (some 2) none none).total
       = (Memory.applyFilters [statTaskA, statTaskB, statTaskC] none none).length ∧
     (Memory.getAllTasks [statTaskA, statTaskB, statTaskC]
        (some 2) (some 2) none none).totalPages
       = some (ceilDiv
           (Memory.applyFilters [statTaskA, statTaskB, statTaskC] none none).length 2) ∧
     (Memory.applyFilters [statTaskA, statTaskB, statTaskC] none none).length
       ≤ 2 * ceilDiv
           (Memory.applyFilters [statTaskA, statTaskB, statTaskC] none none).length 2 ∧
     2 * ceilDiv
         (Memory.applyFilters [statTaskA, statTaskB, statTaskC] none none).length 2
       < (Memory.applyFilters [statTaskA, statTaskB, statTaskC] none none).length + 2 ∧
     (List.range (ceilDiv
         (Memory.applyFilters [statTaskA, statTaskB, statTaskC] none none).length 2)).flatMap
         (fun i => (Memory.getAllTasks [statTaskA, statTaskB, statTaskC]
             (some (i + 1)) (some 2) none none).tasks)
       = sortByCreatedDesc (Memory.applyFilters [statTaskA, statTaskB, statTaskC] none none)) :=
  ⟨⟨by decide, by decide⟩,
   c5_pagination [statTaskA, statTaskB, statTaskC] none none 2 2 (by decide) (by decide)⟩

/-! ## C3 -/

/-- Inserting into a `createdAt`-descending list keeps it descending. -/
theorem insertByCreatedDesc_pairwise (t : Task) (l : List Task)
    (h : l.Pairwise (fun a b => b.createdAt ≤ a.createdAt)) :
    (insertByCreatedDesc t l).Pairwise (fun a b => b.createdAt ≤ a.createdAt) := by
  induction l with
  | nil => simp [insertByCreatedDesc]
  | cons h0 rest ih =>
      rcases List.pairwise_cons.mp h with ⟨hh, hrest⟩
      simp only [insertByCreatedDesc]
      split
      · next hle =>
          refine List.pairwise_cons.mpr ⟨?_, ih hrest⟩
          intro b hb
          have hb' := (insertByCreatedDesc_perm t rest).mem_iff.mp hb
          rcases List.mem_cons.mp hb' with rfl | hbm
          · exact hle
          · exact hh b hbm
      · next hgt =>
          refine List.pairwise_cons.mpr ⟨?_, h⟩
          intro b hb
          rcases List.mem_cons.mp hb with rfl | hbm
          · omega
          · have := hh b hbm
            omega

/-- The stable sort's output is `createdAt`-descending. -/
theorem sortByCreatedDesc_pairwise (l : List Task) :
    (sortByCreatedDesc l).Pairwise (fun a b => b.createdAt ≤ a.createdAt) := by
  suffices h : ∀ (l acc : List Task),
      acc.Pairwise (fun a b => b.createdAt ≤ a.createdAt) →
      (l.foldl (fun acc t => insertByCreatedDesc t acc) acc).Pairwise
        (fun a b => b.createdAt ≤ a.createdAt) by
    exact h l [] (by simp)
  intro l
  induction l with
  | nil => intro acc hacc; simpa using hacc
  | cons t rest ih =>
      intro acc hacc
      exact ih _ (insertByCreatedDesc_pairwise t acc hacc)

/-- Inserting into a sorted-descending list puts the new element after every
element with the same `createdAt`: per-timestamp, insertion appends. -/
theorem insertByCreatedDesc_filter (t : Task) (l : List Task) (n : Nat)
    (h : l.Pairwise (fun a b => b.createdAt ≤ a.createdAt)) :
    (insertByCreatedDesc t l).filter (fun a => a.createdAt == n)
      = l.filter (fun a => a.createdAt == n)
        ++ (if t.createdAt = n then [t] else []) := by
  induction l with
  | nil => by_cases hn : t.createdAt = n <;> simp [insertByCreatedDesc, hn]
  | cons h0 rest ih =>
      rcases List.pairwise_cons.mp h with ⟨hh, hrest⟩
      simp only [insertByCreatedDesc]
      split
      · next hle =>
          by_cases h0n : h0.createdAt = n <;>
            simp [List.filter_cons, h0n, ih hrest]
      · next hgt =>
          have hnone : (h0 :: rest).filter (fun a => a.createdAt == t.createdAt) = [] := by
            rw [List.filter_eq_nil_iff]
            intro a ha
            rcases List.mem_cons.mp ha with rfl | ham
            · simp; omega
            · have := hh a ham
              simp
              omega
          by_cases hn : t.createdAt = n
          · subst hn
            simp [hnone]
          · have hfalse : (t.createdAt == n) = false := by simp [hn]
            simp [List.filter_cons, hfalse, hn]

/-- Stability of the sort: restricted to any single `createdAt` value, the
sorted output preserves the input (insertion) order exactly. -/
theorem sortByCreatedDesc_stable (l : List Task) (n : Nat) :
    (sortByCreatedDesc l).filter (fun a => a.createdAt == n)
      = l.filter (fun a => a.createdAt == n) := by
  suffices h : ∀ (l acc : List Task),
      acc.Pairwise (fun a b => b.createdAt ≤ a.createdAt) →
      (l.foldl (fun acc t => insertByCreatedDesc t acc) acc).filter
          (fun a => a.createdAt == n)
        = acc.filter (fun a => a.createdAt == n)
          ++ l.filter (fun a => a.createdAt == n) by
    simpa using h l [] (by simp)
  intro l
  induction l with
  | nil => intro acc hacc; simp
  | cons t rest ih =>
      intro acc hacc
      simp only [List.foldl_cons]
      rw [ih _ (insertByCreatedDesc_pairwise t acc hacc),
        insertByCreatedDesc_filter t acc n hacc]
      by_cases hn : t.createdAt = n
      · simp [List.filter_cons, hn]
      · have hfalse : (t.createdAt == n) = false := by simp [hn]
        simp [List.filter_cons, hfalse, hn]

/-- The composed truthiness-guarded filters only ever drop elements. -/
theorem applyFilters_sublist (tasks : List Task) (status search : Option String) :
    List.Sublist (Memory.applyFilters tasks status search) tasks := by
  have h1 : List.Sublist (Memory.filterByStatus tasks status) tasks := by
    unfold Memory.filterByStatus
    rcases status with _ | s
    · exact List.Sublist.refl _
    · by_cases hs : s = "" <;> simp [hs, List.filter_sublist]
  have h2 : List.Sublist (Memory.applyFilters tasks status search)
      (Memory.filterByStatus tasks status) := by
    unfold Memory.applyFilters Memory.filterBySearch
    rcases search with _ | q
    · exact List.Sublist.refl _
    · by_cases hq : q = "" <;> simp [hq, List.filter_sublist]
  exact h2.trans h1

/-- Any list result is some contiguous slice of the sorted filtered set. -/
theorem memory_getAllTasks_is_slice (tasks : List Task) (page limit : Option Nat)
    (status search : Option String) :
    ∃ x y, (Memory.getAllTasks tasks page limit status search).tasks
      = (((sortByCreatedDesc (Memory.applyFilters tasks status search)).drop x).take y) := by
  have hall : ∃ x y,
      sortByCreatedDesc (Memory.applyFilters tasks status search)
        = (((sortByCreatedDesc (Memory.applyFilters tasks status search)).drop x).take y) :=
    ⟨0, (sortByCreatedDesc (Memory.applyFilters tasks status search)).length,
      by rw [List.drop_zero, List.take_length]⟩
  rcases page with _ | p
  · exact hall
  rcases limit with _ | l
  · exact hall
  by_cases hp : p = 0
  · subst hp
    simpa [Memory.getAllTasks] using hall
  by_cases hl : l = 0
  · subst hl
    simpa [Memory.getAllTasks] using hall
  · exact ⟨(p - 1) * l, l, by simp [Memory.getAllTasks, hp, hl]⟩

/-- A contiguous slice of a two-element list is never its reversal. -/
theorem slice_pair_ne_swap (a b : Task) (hne : a ≠ b) (x y : Nat) :
    (([a, b].drop x).take y) ≠ [b, a] := by
  intro hcontra
  have hlen := congrArg List.length hcontra
  simp [List.length_take, List.length_drop] at hlen
  have hx : x = 0 := by omega
  have hy : 2 ≤ y := by omega
  subst hx
  rw [List.drop_zero, List.take_of_length_le (by simp; omega)] at hcontra
  simp at hcontra
  exact hne hcontra.1

/-- C3 counterexample: the list operation accepts no sort argument. With the
two-task store `[sortTaskA, sortTaskB]` (sortTaskA created later but titled
"b"), title-ascending order would be `[sortTaskB, sortTaskA]`, yet no choice
of `page`/`limit`/`status`/`search` — the entire request surface — returns
that order: the result is always a slice of the `createdAt`-descending
sequence, so no caller can choose `title` (nor `updatedAt`, nor `status`) as
a sort field. -/
theorem c3_no_caller_chosen_sort :
    ¬ ∃ (page limit : Option Nat) (status search : Option String),
        (Memory.getAllTasks [sortTaskA, sortTaskB] page limit status search).tasks
          = [sortTaskB, sortTaskA] := by
  rintro ⟨page, limit, status, search, h⟩
  rcases memory_getAllTasks_is_slice [sortTaskA, sortTaskB] page limit status search
    with ⟨x, y, hslice⟩
  rw [hslice] at h
  have hsub := applyFilters_sublist [sortTaskA, sortTaskB] status search
  have hcases : Memory.applyFilters [sortTaskA, sortTaskB] status search = []
      ∨ Memory.applyFilters [sortTaskA, sortTaskB] status search = [sortTaskA]
      ∨ Memory.applyFilters [sortTaskA, sortTaskB] status search = [sortTaskB]
      ∨ Memory.applyFilters [sortTaskA, sortTaskB] status search
          = [sortTaskA, sortTaskB] := by
    generalize Memory.applyFilters [sortTaskA, sortTaskB] status search = f at hsub ⊢
    rcases (List.sublist_cons_iff).mp hsub with h1 | ⟨r, rfl, hr⟩
    · rcases (List.sublist_cons_iff).mp h1 with h2 | ⟨r, rfl, hr⟩
      · left; exact List.sublist_nil.mp h2
      · right; right; left
        rw [List.sublist_nil.mp hr]
    · rcases (List.sublist_cons_iff).mp hr with h2 | ⟨r2, rfl, hr2⟩
      · right; left
        rw [List.sublist_nil.mp h2]
      · right; right; right
        rw [List.sublist_nil.mp hr2]
  have hAB : sortTaskA ≠ sortTaskB := by decide
  rcases hcases with hf | hf | hf | hf <;> rw [hf] at h
  · simp [sortByCreatedDesc] at h
  · rw [show sortByCreatedDesc [sortTaskA] = [sortTaskA] from by decide] at h
    have hlen := congrArg List.length h
    simp [List.length_take, List.length_drop] at hlen
    omega
  · rw [show sortByCreatedDesc [sortTaskB] = [sortTaskB] from by decide] at h
    have hlen := congrArg List.length h
    simp [List.length_take, List.length_drop] at hlen
    omega
  · rw [show sortByCreatedDesc [sortTaskA, sortTaskB] = [sortTaskA, sortTaskB]
        from by decide] at h
    exact slice_pair_ne_swap sortTaskA sortTaskB hAB x y h

/-- C3 amended: every list result — for every request — is ordered by
`createdAt` descending (the operation's only order, also its default), the
unpaginated result is a permutation of the filtered set, and ties are broken
by stable insertion order: per `createdAt` value the output preserves the
store's insertion sequence exactly. -/
theorem c3_always_createdAt_desc (tasks : List Task) (page limit : Option Nat)
    (status search : Option String) :
    (Memory.getAllTasks tasks page limit status search).tasks.Pairwise
      (fun a b => b.createdAt ≤ a.createdAt) ∧
    ((Memory.getAllTasks tasks none none status search).tasks).Perm
      (Memory.applyFilters tasks status search) ∧
    (∀ n, (Memory.getAllTasks tasks none none status search).tasks.filter
        (fun a => a.createdAt == n)
      = (Memory.applyFilters tasks status search).filter
          (fun a => a.createdAt == n)) := by
  refine ⟨?_, sortByCreatedDesc_perm _, fun n => sortByCreatedDesc_stable _ n⟩
  rcases memory_getAllTasks_is_slice tasks page limit status search with ⟨x, y, hslice⟩
  rw [hslice]
  exact List.Pairwise.sublist ((List.take_sublist _ _).trans (List.drop_sublist _ _))
    (sortByCreatedDesc_pairwise _)

/-! ## C2: lemmas on ASCII case folding -/

theorem toNat_ofNat_valid (n : Nat) (h : n < 55296) : (Char.ofNat n).toNat = n := by
  have hv : n.isValidChar := Or.inl h
  rw [Char.ofNat, dif_pos hv]
  rfl

theorem upperChar_lowerChar (c : Char) : upperChar (lowerChar c) = upperChar c := by
  by_cases h : 65 ≤ c.toNat ∧ c.toNat ≤ 90
  · have h1 : lowerChar c = Char.ofNat (c.toNat + 32) := by
      unfold lowerChar; rw [if_pos h]
    have h2 : (lowerChar c).toNat = c.toNat + 32 := by
      rw [h1, toNat_ofNat_valid _ (by omega)]
    unfold upperChar
    rw [h2, if_pos ⟨by omega, by omega⟩, if_neg (by omega)]
    have h3 : c.toNat + 32 - 32 = c.toNat := by omega
    rw [h3, Char.ofNat_toNat]
  · have h1 : lowerChar c = c := by unfold lowerChar; rw [if_neg h]
    rw [h1]

theorem lowerChar_upperChar (c : Char) : lowerChar (upperChar c) = lowerChar c := by
  by_cases h : 97 ≤ c.toNat ∧ c.toNat ≤ 122
  · have h1 : upperChar c = Char.ofNat (c.toNat - 32) := by
      unfold upperChar; rw [if_pos h]
    have h2 : (upperChar c).toNat = c.toNat - 32 := by
      rw [h1, toNat_ofNat_valid _ (by omega)]
    unfold lowerChar
    rw [h2, if_pos ⟨by omega, by omega⟩, if_neg (by omega)]
    have h3 : c.toNat - 32 + 32 = c.toNat := by omega
    rw [h3, Char.ofNat_toNat]
  · have h1 : upperChar c = c := by unfold upperChar; rw [if_neg h]
    rw [h1]

theorem map_upper_map_lower (l : List Char) :
    (l.map lowerChar).map upperChar = l.map upperChar := by
  rw [List.map_map]
  exact List.map_congr_left (fun c _ => upperChar_lowerChar c)

theorem map_lower_map_upper (l : List Char) :
    (l.map upperChar).map lowerChar = l.map lowerChar := by
  rw [List.map_map]
  exact List.map_congr_left (fun c _ => lowerChar_upperChar c)

/-- For an already-upper-case pattern `S`, case-insensitive comparison via
lower-casing both sides (JS) agrees with upper-casing the candidate (SQL). -/
theorem lower_eq_iff_upper (S s : List Char) (hS : S.map upperChar = S) :
    (S.map lowerChar = s.map lowerChar) ↔ (S = s.map upperChar) := by
  constructor
  · intro h
    have h2 := congrArg (List.map upperChar) h
    rw [map_upper_map_lower, map_upper_map_lower, hS] at h2
    exact h2
  · intro h
    rw [h, map_lower_map_upper]

/-- The in-memory status filter (`toLowerCase` on both sides) and the SQLite
status clause (`status = ?` with the input upper-cased) accept exactly the
same inputs, for each of the three canonical statuses. -/
theorem statusMatch_eq_sql (s : String) (t : Task) :
    Memory.statusMatch s t = (t.status.str.data == jsUpper s) := by
  have hS : t.status.str.data.map upperChar = t.status.str.data := by
    cases t.status <;> decide
  have hiff := lower_eq_iff_upper t.status.str.data s.data hS
  show (jsLower t.status.str == jsLower s) = (t.status.str.data == jsUpper s)
  unfold jsLower jsUpper
  by_cases h1 : t.status.str.data.map lowerChar = s.data.map lowerChar
  · simp [h1, hiff.mp h1, lowerChar_upperChar]
  · have h2 : ¬ t.status.str.data = s.data.map upperChar := fun hc => h1 (hiff.mpr hc)
    simp [h1, h2]

/-! ## C2: lemmas on `LIKE` vs `includes` -/

theorem tails_map (f : Char → Char) (l : List Char) :
    (l.map f).tails = l.tails.map (List.map f) := by
  induction l with
  | nil => rfl
  | cons c l ih => simp [ih]

theorem containsSub_eq_any_tails (n h : List Char) :
    containsSub n h = h.tails.any (fun u => n.isPrefixOf u) := by
  induction h with
  | nil => cases n <;> simp [containsSub, List.isPrefixOf]
  | cons d rest ih => simp [containsSub, ih]

/-- A wildcard-free `LIKE` pattern ending in `%` matches a string iff the
pattern (case-folded) begins the string (case-folded). -/
theorem likeMatch_percent_end (q : List Char) (hq : ∀ c ∈ q, c ≠ '%' ∧ c ≠ '_')
    (u : List Char) :
    Sqlite.likeMatch (q ++ ['%']) u = (q.map lowerChar).isPrefixOf (u.map lowerChar) := by
  induction q generalizing u with
  | nil =>
      simp only [List.nil_append, List.map_nil]
      rw [show Sqlite.likeMatch ['%'] u = u.tails.any (fun v => Sqlite.likeMatch [] v) from by
        simp [Sqlite.likeMatch]]
      have hany : u.tails.any (fun v => Sqlite.likeMatch [] v) = true := by
        refine List.any_eq_true.mpr ⟨[], ?_, ?_⟩
        · exact (List.mem_tails _ _).mpr List.nil_suffix
        · simp [Sqlite.likeMatch]
      rw [hany]
      simp [List.isPrefixOf]
  | cons c q ih =>
      have hc := hq c (List.mem_cons_self c q)
      have hq' : ∀ a ∈ q, a ≠ '%' ∧ a ≠ '_' :=
        fun a ha => hq a (List.mem_cons_of_mem c ha)
      cases u with
      | nil => simp [Sqlite.likeMatch, hc.1, List.isPrefixOf]
      | cons d u' =>
          simp only [List.cons_append, List.map_cons]
          rw [show Sqlite.likeMatch (c :: (q ++ ['%'])) (d :: u')
              = ((lowerChar c == lowerChar d) && Sqlite.likeMatch (q ++ ['%']) u') from by
            simp [Sqlite.likeMatch, hc.1, hc.2]]
          rw [ih hq' u']
          simp [List.isPrefixOf]

/-- For a wildcard-free search string, SQLite's `LIKE '%q%'` is exactly the
ASCII-case-insensitive contiguous-substring test. -/
theorem likeMatch_substring (q t : List Char) (hq : ∀ c ∈ q, c ≠ '%' ∧ c ≠ '_') :
    Sqlite.likeMatch ('%' :: (q ++ ['%'])) t
      = containsSub (q.map lowerChar) (t.map lowerChar) := by
  rw [show Sqlite.likeMatch ('%' :: (q ++ ['%'])) t
      = t.tails.any (fun u => Sqlite.likeMatch (q ++ ['%']) u) from by
    simp [Sqlite.likeMatch]]
  rw [containsSub_eq_any_tails, tails_map, List.any_map]
  simp only [likeMatch_percent_end q hq]
  rfl

/-- The in-memory search filter equals the SQLite `LIKE` clause whenever the
search string carries no `%`/`_` wildcard. -/
theorem searchMatch_eq_sql (s : String) (t : Task)
    (hs : '%' ∉ s.data ∧ '_' ∉ s.data) :
    Memory.searchMatch s t = Sqlite.likeMatch ('%' :: (s.data ++ ['%'])) t.title.data := by
  rw [likeMatch_substring s.data t.title.data
    (fun c hc => ⟨fun he => hs.1 (he ▸ hc), fun he => hs.2 (he ▸ hc)⟩)]
  rfl

/-! ## C2: the two backends' operations agree -/

/-- With wildcard-free search strings, the in-memory filter pipeline computes
exactly the rows selected by the SQLite `WHERE` clause. -/
theorem applyFilters_eq_sql (tasks : List Task) (status search : Option String)
    (hs : ∀ q, search = some q → ('%' ∉ q.data ∧ '_' ∉ q.data)) :
    Memory.applyFilters tasks status search
      = tasks.filter (Sqlite.rowMatch status search) := by
  unfold Memory.applyFilters Memory.filterBySearch Memory.filterByStatus Sqlite.rowMatch
  rcases status with _ | s <;> rcases search with _ | q
  · simp
  · by_cases hq : q = ""
    · simp [hq]
    · have hw := hs q rfl
      simp only [hq, ne_eq, not_false_eq_true, if_true, Bool.true_and]
      refine List.filter_congr ?_
      intro t ht
      rw [searchMatch_eq_sql q t hw]
  · by_cases hs0 : s = ""
    · simp [hs0]
    · simp only [hs0, ne_eq, not_false_eq_true, if_true, Bool.and_true]
      refine List.filter_congr ?_
      intro t ht
      rw [statusMatch_eq_sql s t]
  · have hw := hs q rfl
    by_cases hs0 : s = "" <;> by_cases hq : q = ""
    · simp [hs0, hq]
    · simp [hs0, hq]
      refine List.filter_congr ?_
      intro t ht
      rw [searchMatch_eq_sql q t hw]
    · simp [hs0, hq]
      refine List.filter_congr ?_
      intro t ht
      rw [statusMatch_eq_sql s t]
    · simp only [hs0, hq, ne_eq, not_false_eq_true, if_true]
      rw [List.filter_filter]
      refine List.filter_congr ?_
      intro t ht
      rw [statusMatch_eq_sql s t, searchMatch_eq_sql q t hw, Bool.and_comm]

/-- With wildcard-free search, the two `getAllTasks` implementations return
identical records for identical inputs. -/
theorem getAllTasks_eq_sql (tasks : List Task) (page limit : Option Nat)
    (status search : Option String)
    (hs : ∀ q, search = some q → ('%' ∉ q.data ∧ '_' ∉ q.data)) :
    Memory.getAllTasks tasks page limit status search
      = Sqlite.getAllTasks tasks page limit status search := by
  unfold Memory.getAllTasks Sqlite.getAllTasks
  rw [applyFilters_eq_sql tasks status search hs]

/-- The object-spread merge and the SQL `SET`-clause merge coincide when the
patch carries no `id`/`createdAt` key. -/
theorem spreadMerge_eq_mergePersist (t : Task) (p : TaskPatch) (now : Nat)
    (hid : p.id = none) (hcr : p.createdAt = none) :
    Memory.spreadMerge t p now = Sqlite.mergePersist t p now := by
  cases t
  simp [Memory.spreadMerge, Sqlite.mergePersist, hid, hcr]

theorem memory_updateTask_absent (tasks : List Task) (id : String)
    (p : TaskPatch) (now : Nat) (h : ∀ t ∈ tasks, (t.id == id) = false) :
    Memory.updateTask tasks id p now = (tasks, none) := by
  induction tasks with
  | nil => rfl
  | cons t rest ih =>
      have hf := h t (List.mem_cons_self t rest)
      simp [Memory.updateTask, hf,
        ih (fun u hu => h u (List.mem_cons_of_mem t hu))]

theorem map_untouched_of_no_match (tasks : List Task) (id : String) (f : Task → Task)
    (h : ∀ t ∈ tasks, (t.id == id) = false) :
    tasks.map (fun t => if t.id == id then f t else t) = tasks := by
  induction tasks with
  | nil => rfl
  | cons t rest ih =>
      have hf := h t (List.mem_cons_self t rest)
      have hih := ih (fun u hu => h u (List.mem_cons_of_mem t hu))
      simp only [List.map_cons, hf, Bool.false_eq_true, if_false, hih]

/-- Under unique ids and an `id`/`createdAt`-free patch, the two `updateTask`
implementations agree on both the new store and the returned record. -/
theorem updateTask_eq_sql (tasks : List Task) (id : String) (p : TaskPatch)
    (now : Nat) (hid : p.id = none) (hcr : p.createdAt = none)
    (hnd : (tasks.map Task.id).Nodup) :
    Memory.updateTask tasks id p now = Sqlite.updateTask tasks id p now := by
  induction tasks with
  | nil => rfl
  | cons t rest ih =>
      rw [List.map_cons, List.nodup_cons] at hnd
      rcases hnd with ⟨hnotin, hndrest⟩
      cases hbeq : (t.id == id) with
      | true =>
          have htid : t.id = id := by simpa using hbeq
          have hrest : ∀ u ∈ rest, (u.id == id) = false := by
            intro u hu
            rw [beq_eq_false_iff_ne]
            intro he
            exact hnotin (List.mem_map.mpr ⟨u, hu, by rw [he, htid]⟩)
          unfold Sqlite.updateTask Sqlite.getTaskById
          rw [@List.find?_cons_of_pos Task (fun u => u.id == id) t rest hbeq]
          simp only [List.map_cons, hbeq, if_true,
            map_untouched_of_no_match rest id _ hrest]
          rw [@List.find?_cons_of_pos Task (fun u => u.id == id)
            (Sqlite.mergePersist t p now) rest
            (show ((Sqlite.mergePersist t p now).id == id) = true from hbeq)]
          simp [Memory.updateTask, hbeq, spreadMerge_eq_mergePersist t p now hid hcr]
      | false =>
          unfold Sqlite.updateTask Sqlite.getTaskById
          rw [@List.find?_cons_of_neg Task (fun u => u.id == id) t rest (by simp [hbeq])]
          cases hfind : rest.find? (fun u => u.id == id) with
          | none =>
              have habs : ∀ u ∈ rest, (u.id == id) = false := by
                intro u hu
                have := List.find?_eq_none.mp hfind u hu
                simpa using this
              simp [Memory.updateTask, hbeq,
                memory_updateTask_absent rest id p now habs]
          | some u =>
              have hrest : Memory.updateTask rest id p now
                  = (rest.map (fun v => if v.id == id then Sqlite.mergePersist v p now else v),
                     (rest.map (fun v => if v.id == id then Sqlite.mergePersist v p now else v)).find?
                       (fun v => v.id == id)) := by
                rw [ih hndrest]
                unfold Sqlite.updateTask Sqlite.getTaskById
                rw [hfind]
              simp only [Memory.updateTask, hbeq, Bool.false_eq_true, if_false, hrest,
                List.map_cons]
              rw [@List.find?_cons_of_neg Task (fun u => u.id == id) t
                (rest.map (fun v => if v.id == id then Sqlite.mergePersist v p now else v))
                (by simp [hbeq])]

/-- Under unique ids, splice-first-match and `DELETE ... WHERE` agree. -/
theorem deleteTask_eq_sql (tasks : List Task) (id : String)
    (hnd : (tasks.map Task.id).Nodup) :
    Memory.deleteTask tasks id = Sqlite.deleteTask tasks id := by
  induction tasks with
  | nil => rfl
  | cons t rest ih =>
      rw [List.map_cons, List.nodup_cons] at hnd
      rcases hnd with ⟨hnotin, hndrest⟩
      cases hbeq : (t.id == id) with
      | false =>
          have hne : (t.id != id) = true := by simpa using hbeq
          simp [Memory.deleteTask, Sqlite.deleteTask, hbeq, hne,
            List.filter_cons, List.any_cons, ih hndrest]
      | true =>
          have htid : t.id = id := by simpa using hbeq
          have hall : ∀ u ∈ rest, (u.id != id) = true := by
            intro u hu
            rw [bne_iff_ne]
            intro he
            exact hnotin (List.mem_map.mpr ⟨u, hu, by rw [he, htid]⟩)
          have hkeep : rest.filter (fun u => u.id != id) = rest :=
            List.filter_eq_self.mpr hall
          simp [Memory.deleteTask, Sqlite.deleteTask, hbeq, htid, List.filter_cons,
            List.any_cons, hkeep]

/-- A fresh-id insert succeeds identically on both backends. -/
theorem addTask_eq_sql (tasks : List Task) (t : Task)
    (hfresh : t.id ∉ tasks.map Task.id) :
    Sqlite.addTask tasks t = some (Memory.addTask tasks t) := by
  have h : tasks.any (fun u => u.id == t.id) = false := by
    rw [List.any_eq_false]
    intro u hu
    simp only [beq_iff_eq]
    intro he
    exact hfresh (List.mem_map.mpr ⟨u, hu, he⟩)
  simp [Sqlite.addTask, Memory.addTask, h]

theorem memory_updateTask_map_id (tasks : List Task) (id : String) (p : TaskPatch)
    (now : Nat) (hid : p.id = none) :
    (Memory.updateTask tasks id p now).1.map Task.id = tasks.map Task.id := by
  induction tasks with
  | nil => rfl
  | cons t rest ih =>
      cases hbeq : (t.id == id) with
      | true => simp [Memory.updateTask, hbeq, Memory.spreadMerge, hid]
      | false => simp [Memory.updateTask, hbeq, ih]

theorem memory_deleteTask_sublist (tasks : List Task) (id : String) :
    List.Sublist (Memory.deleteTask tasks id).1 tasks := by
  induction tasks with
  | nil => simp [Memory.deleteTask]
  | cons t rest ih =>
      cases hbeq : (t.id == id) with
      | true => simp [Memory.deleteTask, hbeq]
      | false =>
          simp only [Memory.deleteTask, hbeq, Bool.false_eq_true, if_false]
          exact ih.cons₂ t

/-- One legal step produces identical stores and identical outputs. -/
theorem memStep_eq_sqlStep (s : List Task) (op : Op)
    (hnd : (s.map Task.id).Nodup) (hop : legal s op) :
    memStep s op = sqlStep s op := by
  cases op with
  | create t =>
      simp only [memStep, sqlStep]
      rw [addTask_eq_sql s t hop]
  | get id => rfl
  | listq page limit status search =>
      simp only [memStep, sqlStep]
      rw [getAllTasks_eq_sql s page limit status search ?_]
      intro q hq
      rw [hq] at hop
      exact hop
  | update id p now =>
      simp only [memStep, sqlStep]
      rw [updateTask_eq_sql s id p now hop.1 hop.2 hnd]
  | del id =>
      simp only [memStep, sqlStep]
      rw [deleteTask_eq_sql s id hnd]
  | count => rfl
  | clear => rfl

/-- A legal step keeps ids unique. -/
theorem memStep_nodup (s : List Task) (op : Op)
    (hnd : (s.map Task.id).Nodup) (hop : legal s op) :
    ((memStep s op).1.map Task.id).Nodup := by
  cases op with
  | create t =>
      simp only [memStep, Memory.addTask, List.map_append, List.map_cons, List.map_nil]
      rw [List.nodup_append]
      refine ⟨hnd, List.nodup_singleton _, ?_⟩
      intro x hx hx'
      rcases List.mem_singleton.mp hx' with rfl
      exact hop hx
  | get id => exact hnd
  | listq page limit status search => exact hnd
  | update id p now =>
      show (((Memory.updateTask s id p now).1).map Task.id).Nodup
      rw [memory_updateTask_map_id s id p now hop.1]
      exact hnd
  | del id =>
      exact List.Nodup.sublist
        (List.Sublist.map Task.id (memory_deleteTask_sublist s id)) hnd
  | count => exact hnd
  | clear => simp [memStep, Memory.clearAllTasks]

/-- C2 amended: starting from the empty store, any sequence of store
operations whose created ids are fresh, whose update patches carry no
`id`/`createdAt` key, and whose search strings contain no `LIKE` wildcard
(`%`/`_`) produces identical observable outputs — returned records, order,
`total`/`totalPages`, booleans, counts — and identical final stores on the
volatile and the durable backend (ASCII case-folding model). -/
theorem c2_backends_agree (ops : List Op) (h : legalSeq [] ops) :
    memRun [] ops = sqlRun [] ops := by
  suffices key : ∀ (ops : List Op) (s : List Task),
      (s.map Task.id).Nodup → legalSeq s ops → memRun s ops = sqlRun s ops by
    exact key ops [] (by simp) h
  intro ops
  induction ops with
  | nil => intro s _ _; rfl
  | cons op ops ih =>
      intro s hnd hseq
      obtain ⟨hop, hseq⟩ : legal s op ∧ legalSeq (memStep s op).1 ops := hseq
      simp only [memRun, sqlRun]
      rw [← memStep_eq_sqlStep s op hnd hop,
        ih (memStep s op).1 (memStep_nodup s op hnd hop) hseq]

/-- C2 counterexample: on identical inputs the two backends differ. After
creating `plainTask` (title "abc"), listing with search string `"%"` returns
no tasks on the volatile backend (`includes` finds no literal `%` in "abc")
but returns the task on the durable backend (`LIKE '%%%'` matches every
title) — so without the wildcard restriction the claim is false. -/
theorem c2_wildcard_divergence :
    memRun [] [Op.create plainTask, Op.listq none none none (some "%")]
      ≠ sqlRun [] [Op.create plainTask, Op.listq none none none (some "%")] := by
  decide

/-- Closed instance of `c2_backends_agree` on a run exercising create, a
filtered and paginated list, update, get, two deletes, count and clear. -/
theorem c2_backends_agree_witness :
    legalSeq [] [Op.create statTaskA, Op.create statTaskC,
      Op.listq (some 1) (some 2) (some "pending") (some "LPH"),
      Op.update "a1" { status := some TaskStatus.COMPLETED } 9,
      Op.get "a1", Op.del "c3", Op.del "c3", Op.count, Op.clear] ∧
    memRun [] [Op.create statTaskA, Op.create statTaskC,
      Op.listq (some 1) (some 2) (some "pending") (some "LPH"),
      Op.update "a1" { status := some TaskStatus.COMPLETED } 9,
      Op.get "a1", Op.del "c3", Op.del "c3", Op.count, Op.clear]
    = sqlRun [] [Op.create statTaskA, Op.create statTaskC,
      Op.listq (some 1) (some 2) (some "pending") (some "LPH"),
      Op.update "a1" { status := some TaskStatus.COMPLETED } 9,
      Op.get "a1", Op.del "c3", Op.del "c3", Op.count, Op.clear] := by
  have hlegal : legalSeq [] [Op.create statTaskA, Op.create statTaskC,
      Op.listq (some 1) (some 2) (some "pending") (some "LPH"),
      Op.update "a1" { status := some TaskStatus.COMPLETED } 9,
      Op.get "a1", Op.del "c3", Op.del "c3", Op.count, Op.clear] :=
    ⟨by unfold legal; decide, by unfold legal; decide, by unfold legal; decide,
     by unfold legal; decide, trivial, trivial, trivial, trivial, trivial, trivial⟩
  exact ⟨hlegal, c2_backends_agree _ hlegal⟩

end TaskApi
